import Mathlib

/-!
Verification of the FASTQ/QUAL quality module (Bio/SeqIO/QualityIO.py):
the record tokenizer FastqGeneralIterator, the quality codec
(solexa_quality_from_phred, phred_quality_from_solexa, character
encoding in the writers), the three dialect readers, the FASTQ writers,
and the paired FASTA/QUAL merger.

Python strings are modelled as lists of characters.  An input handle is
modelled as the list of lines that successive readline() calls return:
each element keeps its trailing newline character (the final line may
lack one) and end of file is reached when the list is exhausted.
Exceptions become Except / explicit error components.
-/

namespace Quality

/-- The characters Python str.strip / str.rstrip remove (str.isspace). -/
def pyIsSpace (c : Char) : Bool :=
  c = ' ' || c = '\t' || c = '\n' || c = '\r' || c = '\x0b' || c = '\x0c'

/-- Python s.rstrip(): remove trailing whitespace characters. -/
def pyRstrip : List Char → List Char
  | [] => []
  | c :: t =>
    let r := pyRstrip t
    if r = [] then (if pyIsSpace c then [] else [c]) else c :: r

/-- Python s.lstrip(): remove leading whitespace characters. -/
def pyLstrip (s : List Char) : List Char := s.dropWhile pyIsSpace

/-- Python s.strip(): remove whitespace on both sides. -/
def pyStrip (s : List Char) : List Char := pyLstrip (pyRstrip s)

/-- The first whitespace-separated token of a string, i.e. s.split()[0]
(also the first element of s.split(None, 1)).  Returns none when the
string has no token, where Python raises IndexError. -/
def firstToken? (s : List Char) : Option (List Char) :=
  let t := (s.dropWhile pyIsSpace).takeWhile (fun c => !pyIsSpace c)
  if t = [] then none else some t

/-- A raw line as returned by readline (with its trailing newline). -/
abbrev Line := List Char

/-- The exceptions FastqGeneralIterator can raise.  lengthMismatch
carries the data interpolated into the message "Lengths of sequence and
quality values differs for %s (%i and %i)." -/
inductive FqError
  | malformedStart
  | eofNoQuality
  | titleMismatch
  | lengthMismatch (title : List Char) (seqLen qualLen : Nat)
  deriving DecidableEq

/-- The raw (title, sequence, quality) string triple that
FastqGeneralIterator yields. -/
structure RawRecord where
  title : List Char
  seq : List Char
  qual : List Char
  deriving DecidableEq

/-- One readline() call: pop the next line, or return the empty string
at end of file. -/
def readLine : List Line → Line × List Line
  | [] => ([], [])
  | l :: ls => (l, ls)

/-- The sequence-accumulation loop of FastqGeneralIterator: keep
appending rstripped lines to seq until a line whose first character is
"+" arrives; a repeated title on that line must match exactly; end of
file raises the "End of file without quality information." error. -/
def seqLoop (title seq : List Char) : List Line → Except FqError (List Char × List Line)
  | [] => .error .eofNoQuality
  | line :: rest =>
    if line = [] then .error .eofNoQuality
    else if line.head? = some '+' then
      let second := pyRstrip line.tail
      if second ≠ [] ∧ second ≠ title then .error .titleMismatch
      else .ok (seq, rest)
    else seqLoop title (seq ++ pyRstrip line) rest

/-- The quality-accumulation loop of FastqGeneralIterator: keep
appending rstripped lines to qual; stop at end of file, or at a line
starting with "@" once the accumulated quality already reaches the
sequence length (the lookahead disambiguation).  Returns the quality
text, the pending "@" line when one stopped the loop, and the remaining
lines. -/
def qualLoop (seqLen : Nat) (qual : List Char) :
    List Line → List Char × Option Line × List Line
  | [] => (qual, none, [])
  | line :: rest =>
    if line = [] then (qual, none, rest)
    else if line.head? = some '@' ∧ seqLen ≤ qual.length then (qual, some line, rest)
    else qualLoop seqLen (qual ++ pyRstrip line) rest

/-- The main loop of FastqGeneralIterator, starting from a line already
read (which must begin with "@").  The fuel argument only bounds the
number of records parsed; each iteration consumes at least three lines
of the stream, so the callers below always supply enough fuel.  Returns
the records yielded before the generator stopped, and the exception
that stopped it, if any. -/
def parseRecs : Nat → Line → List Line → List RawRecord × Option FqError
  | 0, _, _ => ([], none)
  | fuel + 1, atLine, rest =>
    if atLine.head? ≠ some '@' then ([], some .malformedStart)
    else
      let title := pyRstrip atLine.tail
      let (l1, rest1) := readLine rest
      match seqLoop title (pyRstrip l1) rest1 with
      | .error e => ([], some e)
      | .ok (seq, rest2) =>
        let (ql, rest3) := readLine rest2
        let (qual, nxt, rest4) := qualLoop seq.length (pyStrip ql) rest3
        if seq.length ≠ qual.length then
          ([], some (.lengthMismatch title seq.length qual.length))
        else
          match nxt with
          | none => ([⟨title, seq, qual⟩], none)
          | some at2 =>
            let (recs, err) := parseRecs fuel at2 rest4
            (⟨title, seq, qual⟩ :: recs, err)

/-- The skip loop before the first record: drop lines until one starts
with "@"; end of file just ends the iteration. -/
def fqSkip : List Line → Option (Line × List Line)
  | [] => none
  | line :: rest =>
    if line = [] then none
    else if line.head? = some '@' then some (line, rest)
    else fqSkip rest

/-- FastqGeneralIterator over a whole stream of lines: the list of raw
records yielded, plus the exception that ended iteration, if any. -/
def FastqGeneralIterator (lines : List Line) : List RawRecord × Option FqError :=
  match fqSkip lines with
  | none => ([], none)
  | some (at1, rest) => parseRecs (rest.length + 1) at1 rest

/-! ## Quality codec: score conversions -/

/-- Errors of the numeric conversions: "PHRED qualities must be
positive (or zero)". -/
inductive QErr
  | invalidPhred
  deriving DecidableEq

/-- solexa_quality_from_phred.  The input is an optional real (None is
the missing value).  The Python branch order is: phred > 0, phred == 0,
phred is None, else raise; None compares false against the two numeric
tests, so matching on the option first is equivalent. -/
noncomputable def solexa_quality_from_phred : Option ℝ → Except QErr (Option ℝ)
  | some p =>
    if 0 < p then .ok (some (max (-5 : ℝ) (10 * Real.logb 10 ((10 : ℝ) ^ (p / 10) - 1))))
    else if p = 0 then .ok (some (-5 : ℝ))
    else .error .invalidPhred
  | none => .ok none

/-- phred_quality_from_solexa.  Never raises: the second component
records whether the non-fatal "Solexa quality less than -5 passed"
warning was emitted. -/
noncomputable def phred_quality_from_solexa : Option ℝ → Option ℝ × Prop
  | none => (none, False)
  | some s => (some (10 * Real.logb 10 ((10 : ℝ) ^ (s / 10) + 1)), s < -5)

/-! ## Quality codec: character encoding in the writers -/

/-- Python 2 round(x): round to the nearest integer with ties away from
zero. -/
def pyRound (x : ℚ) : ℤ :=
  if 0 ≤ x then ⌊x + 1 / 2⌋ else -⌊-x + 1 / 2⌋

def SANGER_SCORE_OFFSET : ℤ := 33
def SOLEXA_SCORE_OFFSET : ℤ := 64

/-- Exceptions of the writers.  missingNone is the TypeError
"A quality value of None was found"; lengthMismatch carries the data of
"Record %s has sequence length %i but %i quality scores". -/
inductive WriteError
  | missingNone
  | lengthMismatch (id : List Char) (seqLen qualLen : Nat)
  | titleIndexError
  deriving DecidableEq

/-- The code point of each quality character the FASTQ writers build:
int(round(q + offset, 0)) for every score q of the record; a None score
makes the whole write fail. -/
def encodeQualCodes (offset : ℤ) : List (Option ℚ) → Except WriteError (List ℤ)
  | [] => .ok []
  | none :: _ => .error .missingNone
  | some q :: rest =>
    match encodeQualCodes offset rest with
    | .error e => .error e
    | .ok cs => .ok (pyRound (q + (offset : ℚ)) :: cs)

/-- The quality string the FASTQ writers build: chr of each code. -/
def encodeQualStr (offset : ℤ) (qs : List (Option ℚ)) : Except WriteError (List Char) :=
  (encodeQualCodes offset qs).map (List.map (fun n => Char.ofNat n.toNat))

/-! ## Dialect readers -/

/-- Exceptions of the dialect readers.  emptyTitle is the IndexError of
descr.split()[0] on a title without tokens; the outOfRange constructors
stand for the three dialect-specific ValueError messages, each of which
names the likely true dialect (Sanger points at Solexa/Illumina,
Illumina points at Sanger and old Solexa, Solexa reports the offending
minimum and points at Sanger); solexaTitleUnpack is the ValueError from
the tuple unpacking (id, name, descr) = title_line. -/
inductive ReadError
  | emptyTitle
  | outOfRangeSanger
  | outOfRangeSolexa (minScore : ℤ)
  | outOfRangeIllumina
  | solexaTitleUnpack
  deriving DecidableEq

/-- A record a dialect reader hands to the caller: sequence plus the
decoded quality integers (attached under the dialect-specific key). -/
structure DecRecord where
  id : List Char
  name : List Char
  descr : List Char
  seq : List Char
  scores : List ℤ
  deriving DecidableEq

/-- The default title split: the whole title line is the description,
its first whitespace-separated token the id and the name. -/
def defaultTitleIds (title : List Char) :
    Except ReadError (List Char × List Char × List Char) :=
  match firstToken? title with
  | none => .error .emptyTitle
  | some tok => .ok (tok, tok, title)

/-- Title handling of FastqPhredIterator and FastqIlluminaIterator:
apply title2ids when supplied, else the default split. -/
def titleIds (t2i : Option (List Char → List Char × List Char × List Char))
    (title : List Char) : Except ReadError (List Char × List Char × List Char) :=
  match t2i with
  | some f => .ok (f title)
  | none => defaultTitleIds title

/-- Title handling of FastqSolexaIterator.  When title2ids is supplied
the source reads (id, name, descr) = title_line — tuple unpacking of
the title STRING itself, never calling title2ids: it succeeds exactly
when the title has three characters, binding one character each, and
raises a ValueError otherwise. -/
def solexaTitleIds (t2i : Option (List Char → List Char × List Char × List Char))
    (title : List Char) : Except ReadError (List Char × List Char × List Char) :=
  match t2i with
  | none => defaultTitleIds title
  | some _ =>
    match title with
    | [a, b, c] => .ok ([a], [b], [c])
    | _ => .error .solexaTitleUnpack

/-- ord(letter) - offset for each quality letter. -/
def decodeScores (offset : ℤ) (qual : List Char) : List ℤ :=
  qual.map (fun c => (c.toNat : ℤ) - offset)

/-- Python min() of a nonempty list (none for the empty list). -/
def pyMin : List ℤ → Option ℤ
  | [] => none
  | x :: xs => some (xs.foldl min x)

/-- Python max() of a nonempty list (none for the empty list). -/
def pyMax : List ℤ → Option ℤ
  | [] => none
  | x :: xs => some (xs.foldl max x)

/-- The validation test of the two PHRED dialect readers:
qualities and (min(qualities) < 0 or max(qualities) > 93). -/
def phredOutOfRange (qs : List ℤ) : Bool :=
  match pyMin qs, pyMax qs with
  | some mn, some mx => mn < 0 || 93 < mx
  | _, _ => false

/-- One record of FastqPhredIterator: titles, then decode with offset
33, then the whole record fails if any score is outside 0..93. -/
def fastqPhredRecord (t2i : Option (List Char → List Char × List Char × List Char))
    (r : RawRecord) : Except ReadError DecRecord :=
  match titleIds t2i r.title with
  | .error e => .error e
  | .ok (id, name, descr) =>
    let qualities := decodeScores SANGER_SCORE_OFFSET r.qual
    if phredOutOfRange qualities then .error .outOfRangeSanger
    else .ok ⟨id, name, descr, r.seq, qualities⟩

/-- One record of FastqSolexaIterator: decode with offset 64, fail if
qualities and min(qualities) < -5, reporting that minimum. -/
def fastqSolexaRecord (t2i : Option (List Char → List Char × List Char × List Char))
    (r : RawRecord) : Except ReadError DecRecord :=
  match solexaTitleIds t2i r.title with
  | .error e => .error e
  | .ok (id, name, descr) =>
    let qualities := decodeScores SOLEXA_SCORE_OFFSET r.qual
    match pyMin qualities with
    | some mn =>
      if mn < -5 then .error (.outOfRangeSolexa mn)
      else .ok ⟨id, name, descr, r.seq, qualities⟩
    | none => .ok ⟨id, name, descr, r.seq, qualities⟩

/-- One record of FastqIlluminaIterator: decode with offset 64, fail if
any score is outside 0..93. -/
def fastqIlluminaRecord (t2i : Option (List Char → List Char × List Char × List Char))
    (r : RawRecord) : Except ReadError DecRecord :=
  match titleIds t2i r.title with
  | .error e => .error e
  | .ok (id, name, descr) =>
    let qualities := decodeScores SOLEXA_SCORE_OFFSET r.qual
    if phredOutOfRange qualities then .error .outOfRangeIllumina
    else .ok ⟨id, name, descr, r.seq, qualities⟩

/-- Process the tokenizer output record by record, stopping at the
first per-record failure. -/
def mapRecords (f : RawRecord → Except ReadError DecRecord) :
    List RawRecord → List DecRecord × Option ReadError
  | [] => ([], none)
  | r :: rs =>
    match f r with
    | .error e => ([], some e)
    | .ok d =>
      let (ds, e) := mapRecords f rs
      (d :: ds, e)

/-- The error that ends a dialect-reader iteration: either the
tokenizer raised, or decoding a record raised. -/
inductive IterError
  | tokErr (e : FqError)
  | recErr (e : ReadError)
  deriving DecidableEq

/-- Compose the tokenizer with per-record decoding, mirroring the
generator interleaving: a record-level failure surfaces before a
tokenizer failure that would only arise at a later pull. -/
def runReader (f : RawRecord → Except ReadError DecRecord) (lines : List Line) :
    List DecRecord × Option IterError :=
  let (rs, te) := FastqGeneralIterator lines
  let (ds, re) := mapRecords f rs
  match re with
  | some e => (ds, some (.recErr e))
  | none => (ds, te.map .tokErr)

/-- FastqPhredIterator over a stream of lines. -/
def FastqPhredIterator (t2i : Option (List Char → List Char × List Char × List Char))
    (lines : List Line) : List DecRecord × Option IterError :=
  runReader (fastqPhredRecord t2i) lines

/-! ## Writers -/

/-- Modelled from the spec: the clean method of the shared sequential
writer base class (Bio.SeqIO.Interfaces, not among these sources).
Section 4.4 writes the id and the description directly into the title
line, so clean is the identity. -/
def clean (s : List Char) : List Char := s

/-- The title line computation shared by the FASTQ writers: the
description verbatim when its first token is the id, otherwise
id + " " + description, or the id alone when there is no description.
(On a nonempty all-whitespace description, description.split(None,1)[0]
raises IndexError in the source.) -/
def writerTitle (id descr : List Char) : Except WriteError (List Char) :=
  if descr = [] then .ok id
  else
    match firstToken? descr with
    | none => .error .titleIndexError
    | some tok => if tok = id then .ok descr else .ok (id ++ [' '] ++ descr)

/-- A record handed to FastqPhredWriter.write_record, with its
phred_quality scores (each possibly None). -/
structure WriteRec where
  id : List Char
  descr : List Char
  seq : List Char
  phred : List (Option ℚ)

/-- FastqPhredWriter.write_record: encode the scores with offset 33,
check len(qualities_str) == len(record), build the title, and perform
the single handle.write("@%s\n%s\n+\n%s\n" % (title, seq, qual)) —
returned here as the flat character stream written to the handle. -/
def fastqPhredWriteRecord (r : WriteRec) : Except WriteError (List Char) :=
  match encodeQualStr SANGER_SCORE_OFFSET r.phred with
  | .error e => .error e
  | .ok qstr =>
    if r.seq.length ≠ qstr.length then
      .error (.lengthMismatch (clean r.id) r.seq.length qstr.length)
    else
      match writerTitle (clean r.id) (clean r.descr) with
      | .error e => .error e
      | .ok title =>
        .ok ('@' :: title ++ '\n' :: r.seq ++ '\n' :: '+' :: '\n' :: qstr ++ ['\n'])

/-- How readline() later re-splits a written character stream: a line
ends just after each newline character, and trailing text without a
newline forms a final line of its own. -/
def splitLines : List Char → List Line
  | [] => []
  | c :: cs =>
    if c = '\n' then ['\n'] :: splitLines cs
    else
      match splitLines cs with
      | [] => [[c]]
      | l :: ls => (c :: l) :: ls

/-! ## Paired FASTA/QUAL merger -/

/-- A record pulled from the FASTA stream. -/
structure FastaRec where
  id : List Char
  seq : List Char
  deriving DecidableEq

/-- A record pulled from the QUAL stream. -/
structure QualRec where
  id : List Char
  scores : List ℤ
  deriving DecidableEq

/-- A merged record: the FASTA record with the QUAL scores attached. -/
structure MergedRec where
  id : List Char
  seq : List Char
  scores : List ℤ
  deriving DecidableEq

/-- Exceptions of PairedFastaQualIterator, each constructor named for
the MESSAGE it stands for.  moreFastaThanQual is the ValueError
"FASTA file has more entries than the QUAL file." and
moreQualThanFasta is "QUAL file has more entries than the FASTA
file."; idMismatch carries the two ids of "FASTA and QUAL entries do
not match (%s vs %s)."; lengthMismatch the id of "Sequence length and
number of quality scores disagree for %s". -/
inductive PairError
  | moreFastaThanQual
  | moreQualThanFasta
  | idMismatch (fastaId qualId : List Char)
  | lengthMismatch (id : List Char)
  deriving DecidableEq

/-- PairedFastaQualIterator over the two record streams: pull one
record from each per step; both exhausted ends normally, one exhausted
raises, differing ids raise, length disagreement raises, otherwise the
qualities are attached and the merged record yielded.  Note which
branch raises which message: the branch where the FASTA iterator is
the one already exhausted raises "FASTA file has more entries than the
QUAL file.", and the branch where the QUAL iterator is exhausted
raises "QUAL file has more entries than the FASTA file." — each
message asserts the opposite of the situation that raises it. -/
def PairedFastaQualIterator : List FastaRec → List QualRec → List MergedRec × Option PairError
  | [], [] => ([], none)
  | [], _ :: _ => ([], some .moreFastaThanQual)
  | _ :: _, [] => ([], some .moreQualThanFasta)
  | f :: fs, q :: qs =>
    if f.id ≠ q.id then ([], some (.idMismatch f.id q.id))
    else if f.seq.length ≠ q.scores.length then ([], some (.lengthMismatch f.id))
    else
      let (ms, e) := PairedFastaQualIterator fs qs
      (⟨f.id, f.seq, q.scores⟩ :: ms, e)

/-! ## Helper lemmas about stripping -/

lemma pyRstrip_eq_self {s : List Char} (h : ∀ c ∈ s, pyIsSpace c = false) :
    pyRstrip s = s := by
  induction s with
  | nil => rfl
  | cons c t ih =>
    have ht : pyRstrip t = t := ih (fun x hx => h x (List.mem_cons_of_mem _ hx))
    have hc : pyIsSpace c = false := h c (List.mem_cons_self _ _)
    rw [pyRstrip]
    simp only [ht, hc]
    cases t with
    | nil => simp
    | cons a b => simp

lemma pyRstrip_append_space {s : List Char} {d : Char} (hd : pyIsSpace d = true) :
    pyRstrip (s ++ [d]) = pyRstrip s := by
  induction s with
  | nil => simp [pyRstrip, hd]
  | cons c t ih =>
    rw [List.cons_append, pyRstrip, pyRstrip]
    simp only [ih]

lemma pyLstrip_eq_self {s : List Char} (h : ∀ c ∈ s, pyIsSpace c = false) :
    pyLstrip s = s := by
  cases s with
  | nil => rfl
  | cons c t => simp [pyLstrip, h c (List.mem_cons_self _ _)]

lemma pyStrip_eq_self {s : List Char} (h : ∀ c ∈ s, pyIsSpace c = false) :
    pyStrip s = s := by
  unfold pyStrip
  rw [pyRstrip_eq_self h, pyLstrip_eq_self h]

lemma pyStrip_append_space {s : List Char} {d : Char} (hd : pyIsSpace d = true) :
    pyStrip (s ++ [d]) = pyStrip s := by
  unfold pyStrip
  rw [pyRstrip_append_space hd]

lemma pyStrip_eq_pyRstrip_of_head {c : Char} {t : List Char} (h : pyIsSpace c = false) :
    pyStrip (c :: t) = pyRstrip (c :: t) := by
  unfold pyStrip pyLstrip
  rw [pyRstrip]
  by_cases hr : pyRstrip t = []
  · simp [hr, h]
  · simp [hr, h]

/-! ## C1: the lookahead disambiguation in the quality loop -/

/-- C1: while FastqGeneralIterator accumulates a quality block, a line
starting with "@" ends the record exactly when the accumulated quality
length already reaches the sequence length; otherwise that line is
stripped and appended and accumulation continues (and for such a line
rstrip and strip agree, its first character being non-whitespace).  A
crafted stream whose quality block contains a line starting with "@"
while still short is parsed through to the true record boundary. -/
theorem C1_quality_at_disambiguation :
    (∀ (seqLen : Nat) (qual : List Char) (line : Line) (rest : List Line),
      line.head? = some '@' →
      (seqLen ≤ qual.length →
          qualLoop seqLen qual (line :: rest) = (qual, some line, rest)) ∧
      (qual.length < seqLen →
          qualLoop seqLen qual (line :: rest) =
            qualLoop seqLen (qual ++ pyRstrip line) rest) ∧
      pyStrip line = pyRstrip line) ∧
    FastqGeneralIterator
        ["@a\n".data, "ACGTACGTAC\n".data, "+\n".data, "IIIII\n".data,
         "@IIII\n".data, "@b\n".data, "ACGT\n".data, "+\n".data, "IIII\n".data] =
      ([⟨"a".data, "ACGTACGTAC".data, "IIIII@IIII".data⟩,
        ⟨"b".data, "ACGT".data, "IIII".data⟩], none) := by
  constructor
  · intro seqLen qual line rest h
    obtain ⟨c, t, rfl⟩ : ∃ c t, line = c :: t := by
      cases line with
      | nil => simp at h
      | cons c t => exact ⟨c, t, rfl⟩
    have hc : c = '@' := by simpa using h
    subst hc
    refine ⟨fun hge => ?_, fun hlt => ?_,
      pyStrip_eq_pyRstrip_of_head (by decide)⟩
    · rw [qualLoop]
      simp [hge]
    · rw [qualLoop]
      simp [Nat.not_le.mpr hlt]
  · decide

/-- Witness for C1: both branches of the disambiguation at concrete
inputs. -/
theorem C1_witness :
    qualLoop 2 "II".data ["@x\n".data] = ("II".data, some "@x\n".data, []) ∧
    qualLoop 3 "II".data ["@x\n".data] = qualLoop 3 ("II".data ++ pyRstrip "@x\n".data) [] :=
  ⟨((C1_quality_at_disambiguation.1 2 "II".data "@x\n".data [] (by decide)).1 (by decide)),
   ((C1_quality_at_disambiguation.1 3 "II".data "@x\n".data [] (by decide)).2.1 (by decide))⟩

/-! ## C10: end of file before the plus line -/

lemma seqLoop_no_plus :
    ∀ (lines : List Line), (∀ l ∈ lines, l.head? ≠ some '+') →
      ∀ (title seq : List Char), seqLoop title seq lines = .error .eofNoQuality := by
  intro lines
  induction lines with
  | nil => intro _ title seq; rfl
  | cons l ls ih =>
    intro h title seq
    by_cases hl : l = []
    · rw [seqLoop, if_pos hl]
    · have hplus : ¬l.head? = some '+' := h l (List.mem_cons_self _ _)
      rw [seqLoop, if_neg hl, if_neg hplus]
      exact ih (fun x hx => h x (List.mem_cons_of_mem _ hx)) title _

/-- C10: a stream that ends after the "@" title line with no subsequent
line starting with "+" makes FastqGeneralIterator raise the
"End of file without quality information." error and yield nothing. -/
theorem C10_eof_without_quality :
    ∀ (atLine : Line) (rest : List Line),
      atLine.head? = some '@' →
      (∀ l ∈ rest, l.head? ≠ some '+') →
      FastqGeneralIterator (atLine :: rest) = ([], some .eofNoQuality) := by
  intro atLine rest h hplus
  obtain ⟨c, t, rfl⟩ : ∃ c t, atLine = c :: t := by
    cases atLine with
    | nil => simp at h
    | cons c t => exact ⟨c, t, rfl⟩
  have hc : c = '@' := by simpa using h
  subst hc
  have hskip : fqSkip (('@' :: t) :: rest) = some ('@' :: t, rest) := by
    rw [fqSkip]; simp
  simp only [FastqGeneralIterator, hskip]
  rw [parseRecs, if_neg (by simp : ¬(('@' :: t).head? ≠ some '@'))]
  cases rest with
  | nil => rfl
  | cons l ls =>
    rw [show readLine (l :: ls) = (l, ls) from rfl]
    dsimp only
    rw [seqLoop_no_plus ls (fun x hx => hplus x (List.mem_cons_of_mem _ hx))]

/-- Witness for C10 at a concrete truncated stream. -/
theorem C10_witness :
    FastqGeneralIterator ["@t\n".data, "ACGT\n".data] = ([], some .eofNoQuality) :=
  C10_eof_without_quality "@t\n".data ["ACGT\n".data] (by decide) (by decide)

/-! ## C2: the length invariant of yielded records -/

lemma parseRecs_length_eq :
    ∀ (fuel : Nat) (atLine : Line) (rest : List Line),
      ∀ rec ∈ (parseRecs fuel atLine rest).1, rec.seq.length = rec.qual.length := by
  intro fuel
  induction fuel with
  | zero => intro atLine rest rec hrec; simp [parseRecs] at hrec
  | succ n ih =>
    intro atLine rest rec hrec
    rw [parseRecs] at hrec
    by_cases h1 : atLine.head? ≠ some '@'
    · rw [if_pos h1] at hrec; simp at hrec
    · rw [if_neg h1] at hrec
      rcases hr : readLine rest with ⟨l1, rest1⟩
      rw [hr] at hrec
      dsimp only at hrec
      rcases hs : seqLoop (pyRstrip atLine.tail) (pyRstrip l1) rest1 with e | ⟨seq, rest2⟩
      · rw [hs] at hrec; simp at hrec
      · rw [hs] at hrec
        dsimp only at hrec
        rcases hq : readLine rest2 with ⟨ql, rest3⟩
        rw [hq] at hrec
        dsimp only at hrec
        rcases hql : qualLoop seq.length (pyStrip ql) rest3 with ⟨qual, nxt, rest4⟩
        rw [hql] at hrec
        dsimp only at hrec
        by_cases hlen : seq.length ≠ qual.length
        · rw [if_pos hlen] at hrec; simp at hrec
        · rw [if_neg hlen] at hrec
          cases nxt with
          | none =>
            simp only [List.mem_singleton] at hrec
            subst hrec
            exact not_not.mp hlen
          | some at2 =>
            dsimp only at hrec
            rcases hp : parseRecs n at2 rest4 with ⟨recs, err⟩
            rw [hp] at hrec
            dsimp only at hrec
            rcases List.mem_cons.mp hrec with h | h
            · subst h; exact not_not.mp hlen
            · exact ih at2 rest4 rec (by rw [hp]; exact h)

/-- C2: every triple FastqGeneralIterator yields has equal sequence and
quality lengths; an adversarial stream whose quality is shorter is
rejected with the length-mismatch error carrying the title and both
lengths, yielding nothing. -/
theorem C2_tokenizer_length_invariant :
    (∀ lines : List Line, ∀ rec ∈ (FastqGeneralIterator lines).1,
        rec.seq.length = rec.qual.length) ∧
    FastqGeneralIterator ["@t\n".data, "ACGT\n".data, "+\n".data, "!!!\n".data] =
      ([], some (.lengthMismatch "t".data 4 3)) := by
  constructor
  · intro lines rec hrec
    simp only [FastqGeneralIterator] at hrec
    rcases hk : fqSkip lines with _ | ⟨at1, rest⟩
    · rw [hk] at hrec; simp at hrec
    · rw [hk] at hrec
      dsimp only at hrec
      exact parseRecs_length_eq _ _ _ rec hrec
  · decide

/-- Witness for C2 at a concrete record of a concrete stream. -/
theorem C2_witness :
    (⟨"t".data, "ACGT".data, "IIII".data⟩ : RawRecord).seq.length =
      (⟨"t".data, "ACGT".data, "IIII".data⟩ : RawRecord).qual.length :=
  C2_tokenizer_length_invariant.1
    ["@t\n".data, "ACGT\n".data, "+\n".data, "IIII\n".data]
    ⟨"t".data, "ACGT".data, "IIII".data⟩ (by decide)

/-! ## C5 and C9: the log-domain conversions -/

/-- C5: solexa_quality_from_phred follows the piecewise contract: for
positive input the floored log formula, exactly -5 at zero, None for
None, and an invalid-score error for every negative input. -/
theorem C5_solexa_from_phred_piecewise :
    (∀ p : ℝ, 0 < p → solexa_quality_from_phred (some p) =
        .ok (some (max (-5 : ℝ) (10 * Real.logb 10 ((10 : ℝ) ^ (p / 10) - 1))))) ∧
    solexa_quality_from_phred (some 0) = .ok (some (-5 : ℝ)) ∧
    solexa_quality_from_phred none = .ok none ∧
    (∀ p : ℝ, p < 0 → solexa_quality_from_phred (some p) = .error .invalidPhred) := by
  refine ⟨fun p hp => ?_, ?_, rfl, fun p hp => ?_⟩
  · rw [solexa_quality_from_phred, if_pos hp]
  · rw [solexa_quality_from_phred, if_neg (lt_irrefl 0), if_pos rfl]
  · rw [solexa_quality_from_phred, if_neg (by linarith), if_neg (by linarith)]

/-- Witness for C5 at the concrete inputs 10 and -1. -/
theorem C5_witness :
    solexa_quality_from_phred (some 10) =
      .ok (some (max (-5 : ℝ) (10 * Real.logb 10 ((10 : ℝ) ^ ((10 : ℝ) / 10) - 1)))) ∧
    solexa_quality_from_phred (some (-1)) = .error .invalidPhred :=
  ⟨C5_solexa_from_phred_piecewise.1 10 (by norm_num),
   C5_solexa_from_phred_piecewise.2.2.2 (-1) (by norm_num)⟩

/-- C9: phred_quality_from_solexa maps None to None and every numeric
input, including inputs below -5, to the log formula without raising;
the warning flag is set exactly for inputs below -5. -/
theorem C9_phred_from_solexa_total :
    (∀ s : ℝ, phred_quality_from_solexa (some s) =
        (some (10 * Real.logb 10 ((10 : ℝ) ^ (s / 10) + 1)), s < -5)) ∧
    phred_quality_from_solexa none = (none, False) ∧
    (∀ s : ℝ, (phred_quality_from_solexa (some s)).2 ↔ s < -5) :=
  ⟨fun _ => rfl, rfl, fun _ => Iff.rfl⟩

/-! ## C3: the character encoding in the writers -/

lemma pyRound_intCast (n : ℤ) : pyRound ((n : ℚ)) = n := by
  unfold pyRound
  by_cases h : (0 : ℚ) ≤ (n : ℚ)
  · rw [if_pos h, show ((n : ℚ) + 1 / 2) = (1 / 2 : ℚ) + (n : ℚ) by ring,
      Int.floor_add_int]
    norm_num
  · rw [if_neg h, show (-(n : ℚ) + 1 / 2) = (1 / 2 : ℚ) + ((-n : ℤ) : ℚ) by push_cast; ring,
      Int.floor_add_int]
    norm_num

lemma pyRound_add_intCast {q : ℚ} {n : ℤ} (hq : 0 ≤ q) (hn : 0 ≤ n) :
    pyRound (q + (n : ℚ)) = pyRound q + n := by
  have h1 : (0 : ℚ) ≤ q + (n : ℚ) := by
    have : (0 : ℚ) ≤ (n : ℚ) := by exact_mod_cast hn
    linarith
  unfold pyRound
  rw [if_pos h1, if_pos hq, show (q + (n : ℚ) + 1 / 2) = (q + 1 / 2) + (n : ℚ) by ring,
    Int.floor_add_int]

lemma encodeQualCodes_map_some (offset : ℤ) (qs : List ℚ) :
    encodeQualCodes offset (qs.map some) =
      .ok (qs.map fun q => pyRound (q + (offset : ℚ))) := by
  induction qs with
  | nil => rfl
  | cons a t ih =>
    rw [List.map_cons, List.map_cons, encodeQualCodes, ih]

lemma encodeQualCodes_none_mem (offset : ℤ) :
    ∀ (qs : List (Option ℚ)), none ∈ qs →
      encodeQualCodes offset qs = .error .missingNone := by
  intro qs h
  induction qs with
  | nil => simp at h
  | cons a t ih =>
    cases a with
    | none => rfl
    | some q =>
      have ht : none ∈ t := by simpa using h
      rw [encodeQualCodes, ih ht]

/-- C3 (counterexample to the claim as stated): the Solexa writer at the
half-integer score -1/2 emits the code point round(-1/2 + 64) = 64,
while round(-1/2) + 64 = 63 under rounding ties away from zero applied
to the score itself, so the emitted character is not chr(round(q) +
offset). -/
theorem C3_counterexample :
    encodeQualCodes SOLEXA_SCORE_OFFSET [some (-1 / 2)] = .ok [64] ∧
    pyRound (-1 / 2) + SOLEXA_SCORE_OFFSET = 63 := by
  constructor
  · have h1 : pyRound ((-1 / 2 : ℚ) + (SOLEXA_SCORE_OFFSET : ℚ)) = 64 := by
      unfold pyRound SOLEXA_SCORE_OFFSET
      rw [if_pos (by norm_num)]
      norm_num
    have h2 := encodeQualCodes_map_some SOLEXA_SCORE_OFFSET [(-1 / 2 : ℚ)]
    simp only [List.map_cons, List.map_nil, h1] at h2
    exact h2
  · have h2 : pyRound ((-1 / 2 : ℚ)) = -1 := by
      unfold pyRound
      rw [if_neg (by norm_num)]
      norm_num
    rw [h2]
    rfl

/-- C3 (amended): the writers emit, for score q and offset o, the
character whose code point is round(q + o) with ties away from zero —
the rounding is applied after adding the offset, which agrees with
round(q) + o whenever q is nonnegative (in particular on all PHRED
scores) but not on negative half-integer Solexa scores; a None score
fails the whole encoding with the missing-value error. -/
theorem C3_amended_writer_rounding :
    (∀ (offset : ℤ) (qs : List ℚ),
        encodeQualCodes offset (qs.map some) =
          .ok (qs.map fun q => pyRound (q + (offset : ℚ)))) ∧
    (∀ (offset : ℤ), 0 ≤ offset → ∀ q : ℚ, 0 ≤ q →
        pyRound (q + (offset : ℚ)) = pyRound q + offset) ∧
    (∀ (offset : ℤ) (qs : List (Option ℚ)), none ∈ qs →
        encodeQualCodes offset qs = .error .missingNone) :=
  ⟨encodeQualCodes_map_some,
   fun _ ho _ hq => pyRound_add_intCast hq ho,
   encodeQualCodes_none_mem⟩

/-- Witness for C3 at offset 33 with score 2 and with a None score. -/
theorem C3_witness :
    encodeQualCodes SANGER_SCORE_OFFSET ([(2 : ℚ)].map some) =
      .ok ([(2 : ℚ)].map fun q => pyRound (q + ((SANGER_SCORE_OFFSET : ℤ) : ℚ))) ∧
    pyRound ((2 : ℚ) + ((33 : ℤ) : ℚ)) = pyRound 2 + 33 ∧
    encodeQualCodes SANGER_SCORE_OFFSET [none] = .error .missingNone :=
  ⟨C3_amended_writer_rounding.1 SANGER_SCORE_OFFSET [2],
   C3_amended_writer_rounding.2.1 33 (by decide) 2 (by decide),
   C3_amended_writer_rounding.2.2 SANGER_SCORE_OFFSET [none] (by simp)⟩

/-! ## C4: range validation in the dialect readers -/

lemma foldl_min_le (xs : List ℤ) (x : ℤ) :
    xs.foldl min x ≤ x ∧ ∀ y ∈ xs, xs.foldl min x ≤ y := by
  induction xs generalizing x with
  | nil => simp
  | cons a t ih =>
    obtain ⟨h1, h2⟩ := ih (min x a)
    refine ⟨?_, fun y hy => ?_⟩
    · simpa using h1.trans (min_le_left x a)
    · rcases List.mem_cons.mp hy with rfl | hy
      · simpa using h1.trans (min_le_right x y)
      · simpa using h2 y hy

lemma foldl_min_mem (xs : List ℤ) (x : ℤ) :
    xs.foldl min x = x ∨ xs.foldl min x ∈ xs := by
  induction xs generalizing x with
  | nil => left; rfl
  | cons a t ih =>
    rcases ih (min x a) with h | h
    · rcases min_cases x a with ⟨he, _⟩ | ⟨he, _⟩
      · left; simpa [he] using h
      · right; rw [List.foldl_cons, h, he]; exact List.mem_cons_self a t
    · right; exact List.mem_cons_of_mem a (by simpa using h)

lemma le_foldl_max (xs : List ℤ) (x : ℤ) :
    x ≤ xs.foldl max x ∧ ∀ y ∈ xs, y ≤ xs.foldl max x := by
  induction xs generalizing x with
  | nil => simp
  | cons a t ih =>
    obtain ⟨h1, h2⟩ := ih (max x a)
    refine ⟨?_, fun y hy => ?_⟩
    · simpa using (le_max_left x a).trans h1
    · rcases List.mem_cons.mp hy with rfl | hy
      · simpa using (le_max_right x y).trans h1
      · simpa using h2 y hy

lemma foldl_max_mem (xs : List ℤ) (x : ℤ) :
    xs.foldl max x = x ∨ xs.foldl max x ∈ xs := by
  induction xs generalizing x with
  | nil => left; rfl
  | cons a t ih =>
    rcases ih (max x a) with h | h
    · rcases max_cases x a with ⟨he, _⟩ | ⟨he, _⟩
      · left; simpa [he] using h
      · right; rw [List.foldl_cons, h, he]; exact List.mem_cons_self a t
    · right; exact List.mem_cons_of_mem a (by simpa using h)

lemma phredOutOfRange_iff (qs : List ℤ) :
    phredOutOfRange qs = true ↔ ∃ q ∈ qs, q < 0 ∨ 93 < q := by
  cases qs with
  | nil => simp [phredOutOfRange, pyMin, pyMax]
  | cons a t =>
    simp only [phredOutOfRange, pyMin, pyMax, Bool.or_eq_true, decide_eq_true_eq]
    constructor
    · rintro (hmn | hmx)
      · rcases foldl_min_mem t a with h | h
        · exact ⟨t.foldl min a, by simp [h], Or.inl hmn⟩
        · exact ⟨t.foldl min a, List.mem_cons_of_mem a h, Or.inl hmn⟩
      · rcases foldl_max_mem t a with h | h
        · exact ⟨t.foldl max a, by simp [h], Or.inr hmx⟩
        · exact ⟨t.foldl max a, List.mem_cons_of_mem a h, Or.inr hmx⟩
    · rintro ⟨q, hq, hlt | hgt⟩
      · left
        rcases List.mem_cons.mp hq with rfl | hq
        · exact lt_of_le_of_lt (foldl_min_le t q).1 hlt
        · exact lt_of_le_of_lt ((foldl_min_le t a).2 q hq) hlt
      · right
        rcases List.mem_cons.mp hq with rfl | hq
        · exact lt_of_lt_of_le hgt (le_foldl_max t q).1
        · exact lt_of_lt_of_le hgt ((le_foldl_max t a).2 q hq)

lemma phredOutOfRange_eq_false (qs : List ℤ)
    (h : ∀ q ∈ qs, ¬(q < 0 ∨ 93 < q)) : phredOutOfRange qs = false := by
  rw [Bool.eq_false_iff]
  intro hc
  obtain ⟨q, hq, hbad⟩ := (phredOutOfRange_iff qs).mp hc
  exact h q hq hbad

/-- C4: the Sanger and Illumina 1.3+ readers reject a record exactly
when some decoded value lies outside 0..93, each with its own error
naming the likely true dialect; the Solexa reader rejects exactly when
some decoded value is below -5, reporting the offending minimum; in
every other case the record is yielded with the decoded values attached
unchanged. -/
theorem C4_reader_range_validation :
    ∀ (r : RawRecord) (t2i : Option (List Char → List Char × List Char × List Char))
      (ids : List Char × List Char × List Char),
      (titleIds t2i r.title = .ok ids →
        ((fastqPhredRecord t2i r = .error .outOfRangeSanger ↔
            ∃ q ∈ decodeScores SANGER_SCORE_OFFSET r.qual, q < 0 ∨ 93 < q) ∧
         ((∀ q ∈ decodeScores SANGER_SCORE_OFFSET r.qual, ¬(q < 0 ∨ 93 < q)) →
            fastqPhredRecord t2i r =
              .ok ⟨ids.1, ids.2.1, ids.2.2, r.seq,
                decodeScores SANGER_SCORE_OFFSET r.qual⟩) ∧
         (fastqIlluminaRecord t2i r = .error .outOfRangeIllumina ↔
            ∃ q ∈ decodeScores SOLEXA_SCORE_OFFSET r.qual, q < 0 ∨ 93 < q) ∧
         ((∀ q ∈ decodeScores SOLEXA_SCORE_OFFSET r.qual, ¬(q < 0 ∨ 93 < q)) →
            fastqIlluminaRecord t2i r =
              .ok ⟨ids.1, ids.2.1, ids.2.2, r.seq,
                decodeScores SOLEXA_SCORE_OFFSET r.qual⟩))) ∧
      (solexaTitleIds t2i r.title = .ok ids →
        (((∃ q ∈ decodeScores SOLEXA_SCORE_OFFSET r.qual, q < -5) →
            ∃ mn, fastqSolexaRecord t2i r = .error (.outOfRangeSolexa mn) ∧ mn < -5) ∧
         ((∀ q ∈ decodeScores SOLEXA_SCORE_OFFSET r.qual, -5 ≤ q) →
            fastqSolexaRecord t2i r =
              .ok ⟨ids.1, ids.2.1, ids.2.2, r.seq,
                decodeScores SOLEXA_SCORE_OFFSET r.qual⟩))) := by
  intro r t2i ids
  obtain ⟨i, n, d⟩ := ids
  constructor
  · intro hids
    have hphred : fastqPhredRecord t2i r =
        (if phredOutOfRange (decodeScores SANGER_SCORE_OFFSET r.qual) then
          .error .outOfRangeSanger
        else .ok ⟨i, n, d, r.seq, decodeScores SANGER_SCORE_OFFSET r.qual⟩) := by
      unfold fastqPhredRecord
      rw [hids]
    have hill : fastqIlluminaRecord t2i r =
        (if phredOutOfRange (decodeScores SOLEXA_SCORE_OFFSET r.qual) then
          .error .outOfRangeIllumina
        else .ok ⟨i, n, d, r.seq, decodeScores SOLEXA_SCORE_OFFSET r.qual⟩) := by
      unfold fastqIlluminaRecord
      rw [hids]
    refine ⟨?_, fun hok => ?_, ?_, fun hok => ?_⟩
    · rw [hphred]
      by_cases hb : phredOutOfRange (decodeScores SANGER_SCORE_OFFSET r.qual)
      · simp only [if_pos hb]
        simpa using (phredOutOfRange_iff _).mp hb
      · simp only [if_neg hb]
        constructor
        · intro he; exact absurd he (by simp)
        · intro hex
          exact absurd ((phredOutOfRange_iff _).mpr hex) hb
    · rw [hphred, if_neg (by simp [phredOutOfRange_eq_false _ hok])]
    · rw [hill]
      by_cases hb : phredOutOfRange (decodeScores SOLEXA_SCORE_OFFSET r.qual)
      · simp only [if_pos hb]
        simpa using (phredOutOfRange_iff _).mp hb
      · simp only [if_neg hb]
        constructor
        · intro he; exact absurd he (by simp)
        · intro hex
          exact absurd ((phredOutOfRange_iff _).mpr hex) hb
    · rw [hill, if_neg (by simp [phredOutOfRange_eq_false _ hok])]
  · intro hids
    have hsol : fastqSolexaRecord t2i r =
        (match pyMin (decodeScores SOLEXA_SCORE_OFFSET r.qual) with
          | some mn =>
            if mn < -5 then .error (.outOfRangeSolexa mn)
            else .ok ⟨i, n, d, r.seq, decodeScores SOLEXA_SCORE_OFFSET r.qual⟩
          | none => .ok ⟨i, n, d, r.seq, decodeScores SOLEXA_SCORE_OFFSET r.qual⟩) := by
      unfold fastqSolexaRecord
      rw [hids]
    constructor
    · rintro ⟨q, hq, hlt⟩
      cases hmem : decodeScores SOLEXA_SCORE_OFFSET r.qual with
      | nil => rw [hmem] at hq; simp at hq
      | cons a t =>
        rw [hmem] at hsol hq
        have hmn : t.foldl min a ≤ q := by
          rcases List.mem_cons.mp hq with rfl | hq
          · exact (foldl_min_le t q).1
          · exact (foldl_min_le t a).2 q hq
        refine ⟨t.foldl min a, ?_, lt_of_le_of_lt hmn hlt⟩
        rw [hsol]
        simp only [pyMin]
        rw [if_pos (lt_of_le_of_lt hmn hlt)]
    · intro hok
      rw [hsol]
      cases hmem : decodeScores SOLEXA_SCORE_OFFSET r.qual with
      | nil => rfl
      | cons a t =>
        have hmn : -5 ≤ t.foldl min a := by
          rcases foldl_min_mem t a with h | h
          · rw [h]; exact hok a (by rw [hmem]; exact List.mem_cons_self a t)
          · exact hok _ (by rw [hmem]; exact List.mem_cons_of_mem a h)
        simp only [pyMin]
        rw [if_neg (not_lt.mpr hmn)]

/-- Witness for C4: a concrete in-range record decoded by the Sanger
reader with the default title split. -/
theorem C4_witness :
    fastqPhredRecord none ⟨"t".data, "AC".data, "!I".data⟩ =
      .ok ⟨"t".data, "t".data, "t".data, "AC".data,
        decodeScores SANGER_SCORE_OFFSET "!I".data⟩ :=
  ((C4_reader_range_validation ⟨"t".data, "AC".data, "!I".data⟩ none
      ("t".data, "t".data, "t".data)).1 (by rfl)).2.1 (by decide)

/-! ## C6: title parsing and the title2ids override -/

/-- C6 (behaviour at the failing input): with a title-parsing override
supplied, the Sanger and Illumina readers apply it to the title line,
but the Solexa reader never calls it — it tuple-unpacks the title
string itself, so a ten-character title raises a ValueError and a
three-character title binds its three characters to id, name and
description; without an override all three readers use the whole title
as description and its first whitespace token as id and name. -/
theorem C6_solexa_title_override_bug :
    (fastqPhredRecord (some (fun t => (t, t, "D".data))) ⟨"ab cd".data, "A".data, "I".data⟩ =
      .ok ⟨"ab cd".data, "ab cd".data, "D".data, "A".data, [40]⟩) ∧
    (fastqIlluminaRecord (some (fun t => (t, t, "D".data))) ⟨"ab cd".data, "A".data, "h".data⟩ =
      .ok ⟨"ab cd".data, "ab cd".data, "D".data, "A".data, [40]⟩) ∧
    (fastqSolexaRecord (some (fun t => (t, t, "D".data))) ⟨"ab cd".data, "A".data, "h".data⟩ =
      .error .solexaTitleUnpack) ∧
    (fastqSolexaRecord (some (fun t => (t, t, "D".data))) ⟨"abc".data, "A".data, "h".data⟩ =
      .ok ⟨"a".data, "b".data, "c".data, "A".data, [40]⟩) ∧
    (fastqPhredRecord none ⟨"ab cd".data, "A".data, "I".data⟩ =
      .ok ⟨"ab".data, "ab".data, "ab cd".data, "A".data, [40]⟩) ∧
    (fastqSolexaRecord none ⟨"ab cd".data, "A".data, "h".data⟩ =
      .ok ⟨"ab".data, "ab".data, "ab cd".data, "A".data, [40]⟩) ∧
    (fastqIlluminaRecord none ⟨"ab cd".data, "A".data, "h".data⟩ =
      .ok ⟨"ab".data, "ab".data, "ab cd".data, "A".data, [40]⟩) :=
  ⟨rfl, rfl, rfl, rfl, rfl, rfl, rfl⟩

/-! ## C8: the paired FASTA/QUAL merger -/

/-- C8 (behaviour, including at the failing inputs): the merger
advances both streams in lockstep: both streams exhausted ends
normally; an identifier mismatch raises immediately with both ids and
nothing more is yielded; when exactly one stream is exhausted the
merger raises — but with the message of the OPPOSITE relation: a
3-record FASTA stream against a 2-record QUAL stream with matching
leading ids yields the two merged records and then the error whose
message says the QUAL file has more entries, although QUAL is the
stream that ran out, and symmetrically 2 FASTA records against 3 QUAL
records raise the message saying the FASTA file has more entries. -/
theorem C8_paired_merger_lockstep :
    PairedFastaQualIterator [] [] = ([], none) ∧
    (∀ (q : QualRec) (qs : List QualRec),
        PairedFastaQualIterator [] (q :: qs) = ([], some .moreFastaThanQual)) ∧
    (∀ (f : FastaRec) (fs : List FastaRec),
        PairedFastaQualIterator (f :: fs) [] = ([], some .moreQualThanFasta)) ∧
    (∀ (f : FastaRec) (fs : List FastaRec) (q : QualRec) (qs : List QualRec),
        f.id ≠ q.id →
        PairedFastaQualIterator (f :: fs) (q :: qs) =
          ([], some (.idMismatch f.id q.id))) ∧
    PairedFastaQualIterator
        [⟨"a".data, "AC".data⟩, ⟨"b".data, "GT".data⟩, ⟨"c".data, "TT".data⟩]
        [⟨"a".data, [20, 21]⟩, ⟨"b".data, [22, 23]⟩] =
      ([⟨"a".data, "AC".data, [20, 21]⟩, ⟨"b".data, "GT".data, [22, 23]⟩],
        some .moreQualThanFasta) ∧
    PairedFastaQualIterator
        [⟨"a".data, "AC".data⟩, ⟨"b".data, "GT".data⟩]
        [⟨"a".data, [20, 21]⟩, ⟨"b".data, [22, 23]⟩, ⟨"c".data, [24]⟩] =
      ([⟨"a".data, "AC".data, [20, 21]⟩, ⟨"b".data, "GT".data, [22, 23]⟩],
        some .moreFastaThanQual) := by
  refine ⟨rfl, fun q qs => rfl, fun f fs => rfl, fun f fs q qs h => ?_,
    by decide, by decide⟩
  rw [PairedFastaQualIterator, if_pos h]

/-- Witness for C8 at a concrete identifier mismatch. -/
theorem C8_witness :
    PairedFastaQualIterator [⟨"a".data, "A".data⟩] [⟨"b".data, [1]⟩] =
      ([], some (.idMismatch "a".data "b".data)) :=
  C8_paired_merger_lockstep.2.2.2.1 ⟨"a".data, "A".data⟩ [] ⟨"b".data, [1]⟩ []
    (by decide)

/-! ## C7: the Sanger write-then-read round trip -/

lemma charOfNat_toNat {n : ℕ} (h : n < 55296) : (Char.ofNat n).toNat = n := by
  simp only [Char.ofNat, Nat.isValidChar]
  rw [dif_pos (Or.inl h)]
  rfl

lemma pyIsSpace_eq_false_of_ge {c : Char} (h : 33 ≤ c.toNat) : pyIsSpace c = false := by
  have h1 : c ≠ ' ' := fun e => by subst e; exact absurd h (by decide)
  have h2 : c ≠ '\t' := fun e => by subst e; exact absurd h (by decide)
  have h3 : c ≠ '\n' := fun e => by subst e; exact absurd h (by decide)
  have h4 : c ≠ '\r' := fun e => by subst e; exact absurd h (by decide)
  have h5 : c ≠ '\x0b' := fun e => by subst e; exact absurd h (by decide)
  have h6 : c ≠ '\x0c' := fun e => by subst e; exact absurd h (by decide)
  simp [pyIsSpace, h1, h2, h3, h4, h5, h6]

lemma encodeQualCodes_int (offset : ℤ) (scores : List ℤ) :
    encodeQualCodes offset (scores.map fun n : ℤ => some ((n : ℚ))) =
      .ok (scores.map fun n => n + offset) := by
  induction scores with
  | nil => rfl
  | cons a t ih =>
    rw [List.map_cons, List.map_cons, encodeQualCodes, ih,
      show ((a : ℚ) + (offset : ℚ)) = (((a + offset : ℤ)) : ℚ) by push_cast; ring,
      pyRound_intCast]

lemma encodeQualStr_int (offset : ℤ) (scores : List ℤ) :
    encodeQualStr offset (scores.map fun n : ℤ => some ((n : ℚ))) =
      .ok (scores.map fun n => Char.ofNat (n + offset).toNat) := by
  unfold encodeQualStr
  rw [encodeQualCodes_int]
  simp [Except.map, List.map_map]

lemma decodeScores_encode (scores : List ℤ) (h : ∀ q ∈ scores, 0 ≤ q ∧ q ≤ 93) :
    decodeScores SANGER_SCORE_OFFSET
      (scores.map fun n => Char.ofNat (n + SANGER_SCORE_OFFSET).toNat) = scores := by
  induction scores with
  | nil => rfl
  | cons a t ih =>
    obtain ⟨h0, h93⟩ := h a (List.mem_cons_self _ _)
    have htail := ih (fun q hq => h q (List.mem_cons_of_mem _ hq))
    unfold decodeScores at htail ⊢
    simp only [List.map_cons, List.map_map] at htail ⊢
    rw [List.cons_eq_cons]
    refine ⟨?_, htail⟩
    have hlt : (a + SANGER_SCORE_OFFSET).toNat < 55296 := by
      unfold SANGER_SCORE_OFFSET
      omega
    rw [charOfNat_toNat hlt]
    unfold SANGER_SCORE_OFFSET
    omega

lemma encoded_no_space (scores : List ℤ) (h : ∀ q ∈ scores, 0 ≤ q ∧ q ≤ 93) :
    ∀ c ∈ scores.map (fun n => Char.ofNat (n + SANGER_SCORE_OFFSET).toNat),
      pyIsSpace c = false := by
  intro c hc
  obtain ⟨n, hn, rfl⟩ := List.mem_map.mp hc
  obtain ⟨h0, h93⟩ := h n hn
  apply pyIsSpace_eq_false_of_ge
  have hlt : (n + SANGER_SCORE_OFFSET).toNat < 55296 := by
    unfold SANGER_SCORE_OFFSET
    omega
  rw [charOfNat_toNat hlt]
  unfold SANGER_SCORE_OFFSET
  omega

lemma writerTitle_of_tok {id descr : List Char} (h : firstToken? descr = some id) :
    writerTitle id descr = .ok descr := by
  have hne : descr ≠ [] := by
    intro e
    subst e
    simp [firstToken?] at h
  unfold writerTitle
  rw [if_neg hne, h]
  dsimp only
  rw [if_pos rfl]

lemma parseRecs_single (fuel : Nat) (title seq qual : List Char)
    (htitle : pyRstrip title = title) (hseq : pyRstrip seq = seq)
    (hqual : pyStrip qual = qual) (hlen : seq.length = qual.length) :
    parseRecs (fuel + 1) (('@' :: title) ++ ['\n'])
      [seq ++ ['\n'], ['+', '\n'], qual ++ ['\n']] = ([⟨title, seq, qual⟩], none) := by
  have htl : (('@' :: title) ++ ['\n']).tail = title ++ ['\n'] := by simp
  have ht2 : pyRstrip (title ++ ['\n']) = title := by
    rw [pyRstrip_append_space (by decide), htitle]
  have hs2 : pyRstrip (seq ++ ['\n']) = seq := by
    rw [pyRstrip_append_space (by decide), hseq]
  have hq2 : pyStrip (qual ++ ['\n']) = qual := by
    rw [pyStrip_append_space (by decide), hqual]
  rw [parseRecs]
  rw [if_neg (by simp : ¬((('@' :: title) ++ ['\n']).head? ≠ some '@'))]
  rw [show readLine [seq ++ ['\n'], ['+', '\n'], qual ++ ['\n']] =
      (seq ++ ['\n'], [['+', '\n'], qual ++ ['\n']]) from rfl]
  dsimp only
  rw [htl, ht2, hs2]
  have hsl : seqLoop title seq [['+', '\n'], qual ++ ['\n']] =
      .ok (seq, [qual ++ ['\n']]) := by
    rw [seqLoop]
    rw [if_neg (by simp : ¬(['+', '\n'] = ([] : List Char)))]
    rw [if_pos (by simp : (['+', '\n'] : List Char).head? = some '+')]
    dsimp only
    rw [if_neg (fun hx =>
      hx.1 (by decide : pyRstrip (['+', '\n'] : List Char).tail = []))]
  rw [hsl]
  dsimp only
  rw [show readLine [qual ++ ['\n']] = (qual ++ ['\n'], ([] : List Line)) from rfl]
  dsimp only
  rw [hq2]
  rw [show qualLoop seq.length qual ([] : List Line) = (qual, none, []) from rfl]
  dsimp only
  rw [if_neg (by simp [hlen])]

lemma tokenizer_single_record (title seq qual : List Char)
    (htitle : pyRstrip title = title) (hseq : pyRstrip seq = seq)
    (hqual : pyStrip qual = qual) (hlen : seq.length = qual.length) :
    FastqGeneralIterator
        [('@' :: title) ++ ['\n'], seq ++ ['\n'], ['+', '\n'], qual ++ ['\n']] =
      ([⟨title, seq, qual⟩], none) := by
  have hskip : fqSkip
      [('@' :: title) ++ ['\n'], seq ++ ['\n'], ['+', '\n'], qual ++ ['\n']] =
      some (('@' :: title) ++ ['\n'],
        [seq ++ ['\n'], ['+', '\n'], qual ++ ['\n']]) := by
    rw [fqSkip]
    simp
  simp only [FastqGeneralIterator, hskip]
  exact parseRecs_single 3 title seq qual htitle hseq hqual hlen

lemma splitLines_append_newline (s rest : List Char) (h : '\n' ∉ s) :
    splitLines (s ++ '\n' :: rest) = (s ++ ['\n']) :: splitLines rest := by
  induction s with
  | nil => simp [splitLines]
  | cons c t ih =>
    have hc : ¬c = '\n' := fun e => h (List.mem_cons.mpr (Or.inl e.symm))
    have ht : '\n' ∉ t := fun hx => h (List.mem_cons_of_mem c hx)
    rw [List.cons_append, splitLines, if_neg hc, ih ht]
    rfl

/-- C7 (amended): a record whose PHRED scores are integers in 0..93 and
match the sequence length round-trips through the Sanger writer and
reader unchanged — same sequence, scores, id, name and description —
provided the sequence contains no whitespace, the description contains
no newline, has no trailing whitespace, and its first
whitespace-separated token is the id (as holds for every record the
reader itself produces, whose name also always equals its id). -/
theorem C7_amended_sanger_roundtrip (id descr seq : List Char) (scores : List ℤ)
    (hlen : scores.length = seq.length)
    (hrange : ∀ q ∈ scores, 0 ≤ q ∧ q ≤ 93)
    (hseq : ∀ c ∈ seq, pyIsSpace c = false)
    (htok : firstToken? descr = some id)
    (hdescr : pyRstrip descr = descr)
    (hnl : '\n' ∉ descr) :
    ∃ text,
      fastqPhredWriteRecord ⟨id, descr, seq, scores.map fun n : ℤ => some ((n : ℚ))⟩ =
        .ok text ∧
      FastqPhredIterator none (splitLines text) =
        ([⟨id, id, descr, seq, scores⟩], none) := by
  refine ⟨'@' :: descr ++ '\n' :: seq ++ '\n' :: '+' :: '\n' ::
    (scores.map fun n => Char.ofNat (n + SANGER_SCORE_OFFSET).toNat) ++ ['\n'],
    ?_, ?_⟩
  · unfold fastqPhredWriteRecord clean
    dsimp only
    rw [encodeQualStr_int]
    dsimp only
    rw [if_neg (by simp [hlen])]
    rw [writerTitle_of_tok htok]
  · have hs2 : '\n' ∉ seq := fun hx => absurd (hseq '\n' hx) (by decide)
    have hq3 : '\n' ∉ (scores.map fun n => Char.ofNat (n + SANGER_SCORE_OFFSET).toNat) :=
      fun hx => absurd (encoded_no_space scores hrange '\n' hx) (by decide)
    have h1 : '\n' ∉ ('@' :: descr) := by
      intro hx
      rcases List.mem_cons.mp hx with e | e
      · exact absurd e (by decide)
      · exact hnl e
    have hsp : splitLines ('@' :: descr ++ '\n' :: seq ++ '\n' :: '+' :: '\n' ::
        (scores.map fun n => Char.ofNat (n + SANGER_SCORE_OFFSET).toNat) ++ ['\n']) =
        [('@' :: descr) ++ ['\n'], seq ++ ['\n'], ['+', '\n'],
          (scores.map fun n => Char.ofNat (n + SANGER_SCORE_OFFSET).toNat) ++ ['\n']] := by
      rw [show ('@' :: descr ++ '\n' :: seq ++ '\n' :: '+' :: '\n' ::
          (scores.map fun n => Char.ofNat (n + SANGER_SCORE_OFFSET).toNat) ++ ['\n']) =
          (('@' :: descr) ++ '\n' :: (seq ++ '\n' :: ('+' :: '\n' ::
            ((scores.map fun n => Char.ofNat (n + SANGER_SCORE_OFFSET).toNat) ++
              ['\n'])))) by simp]
      rw [splitLines_append_newline _ _ h1]
      rw [splitLines_append_newline _ _ hs2]
      rw [show ('+' :: '\n' :: ((scores.map fun n =>
          Char.ofNat (n + SANGER_SCORE_OFFSET).toNat) ++ ['\n'])) =
          ((['+'] : List Char) ++ '\n' :: ((scores.map fun n =>
            Char.ofNat (n + SANGER_SCORE_OFFSET).toNat) ++ ['\n'])) from rfl]
      rw [splitLines_append_newline _ _ (by decide)]
      rw [splitLines_append_newline _ _ hq3]
      rfl
    rw [hsp]
    have htokz := tokenizer_single_record descr seq
      (scores.map fun n => Char.ofNat (n + SANGER_SCORE_OFFSET).toNat)
      hdescr (pyRstrip_eq_self hseq)
      (pyStrip_eq_self (encoded_no_space scores hrange))
      (by simp [hlen])
    have hrec : fastqPhredRecord none
        ⟨descr, seq, scores.map fun n => Char.ofNat (n + SANGER_SCORE_OFFSET).toNat⟩ =
        .ok ⟨id, id, descr, seq, scores⟩ := by
      unfold fastqPhredRecord titleIds defaultTitleIds
      dsimp only
      rw [htok]
      dsimp only
      rw [decodeScores_encode scores hrange]
      rw [if_neg (by simp [phredOutOfRange_eq_false scores
        (fun q hq => by obtain ⟨a, b⟩ := hrange q hq; omega)])]
    have hmap : mapRecords (fastqPhredRecord none)
        [⟨descr, seq, scores.map fun n => Char.ofNat (n + SANGER_SCORE_OFFSET).toNat⟩] =
        ([⟨id, id, descr, seq, scores⟩], none) := by
      rw [mapRecords, hrec]
      rfl
    unfold FastqPhredIterator runReader
    rw [htokz]
    dsimp only
    rw [hmap]
    rfl

/-- Witness for C7 at a concrete record. -/
theorem C7_witness :
    ∃ text,
      fastqPhredWriteRecord
          ⟨"t".data, "t d".data, "AC".data, [(0 : ℤ), 40].map fun n : ℤ => some ((n : ℚ))⟩ =
        .ok text ∧
      FastqPhredIterator none (splitLines text) =
        ([⟨"t".data, "t".data, "t d".data, "AC".data, [0, 40]⟩], none) :=
  C7_amended_sanger_roundtrip "t".data "t d".data "AC".data [0, 40]
    (by decide) (by decide) (by decide) (by decide) (by decide) (by decide)

/-- C7 (counterexample to the claim as stated): a record with empty
description and in-range scores is written successfully, but reading
the output back changes the title data — the description becomes "x"
while the original record's description was empty — so the round trip
does not return every such record unchanged. -/
theorem C7_counterexample :
    fastqPhredWriteRecord ⟨"x".data, [], "A".data, [some ((0 : ℤ) : ℚ)]⟩ =
      .ok "@x\nA\n+\n!\n".data ∧
    FastqPhredIterator none (splitLines "@x\nA\n+\n!\n".data) =
      ([⟨"x".data, "x".data, "x".data, "A".data, [0]⟩], none) ∧
    ("x".data : List Char) ≠ [] := by
  refine ⟨?_, by decide, by decide⟩
  unfold fastqPhredWriteRecord clean
  dsimp only
  rw [show ([some ((0 : ℤ) : ℚ)] : List (Option ℚ)) =
      [(0 : ℤ)].map (fun n : ℤ => some ((n : ℚ))) by simp]
  rw [encodeQualStr_int]
  dsimp only
  rw [if_neg (by decide)]
  rw [show writerTitle ("x".data) ([] : List Char) = .ok ("x".data) from rfl]
  dsimp only
  rw [show ([(0 : ℤ)].map fun n => Char.ofNat (n + SANGER_SCORE_OFFSET).toNat) =
      "!".data by decide]
  rfl

end Quality
